import Mathlib

/-
Verification of the Happyplates menu-extraction pipeline (src/main.py,
src/prompt.py) and the bounding-box annotator (src/boundingbox.py).

The Python code is shallowly embedded: strings are `List Char`,
Python `str.find` / `str.rfind` / slicing / `strip` are modelled directly,
`json.loads` is modelled by a fuel-based recursive-descent parser over a
`Json` inductive (JSON decimal literals are kept symbolically, no floating
point), `pd.json_normalize(menu_data, record_path=['items'],
meta=['item_type'])` is modelled by `json_normalize` below, and exceptions
are modelled with `Except PyExn`.
-/

set_option autoImplicit false

namespace Happyplates

/-- Python whitespace characters recognised by `str.strip`, i.e. the
characters for which `str.isspace()` holds: the ASCII control spaces
0x09-0x0d, the separators 0x1c-0x1f, the space, NEL (0x85), NBSP
(0xa0), and the Unicode space characters 0x1680, 0x2000-0x200a, 0x2028,
0x2029, 0x202f, 0x205f and 0x3000. -/
def isPySpace (c : Char) : Bool :=
  c == ' ' || c == '\t' || c == '\n' || c == '\r' || c == '\x0b' || c == '\x0c' ||
    c == '\x1c' || c == '\x1d' || c == '\x1e' || c == '\x1f' ||
    c == '\x85' || c == '\xa0' || c == '\u1680' ||
    (0x2000 ≤ c.toNat && c.toNat ≤ 0x200a) ||
    c == '\u2028' || c == '\u2029' || c == '\u202f' || c == '\u205f' || c == '\u3000'

/-- Model of Python `str.strip()`: drop leading and trailing whitespace. -/
def pyStrip (s : List Char) : List Char :=
  ((s.dropWhile isPySpace).reverse.dropWhile isPySpace).reverse

/-- Model of Python `str.find(sub)`: index of the first occurrence of
`sub` in `s`, or `-1` when there is none. -/
def pyFind (s sub : List Char) : Int :=
  match (List.range (s.length + 1)).find? (fun i => sub.isPrefixOf (s.drop i)) with
  | some i => (i : Int)
  | none => -1

/-- Model of Python `str.rfind(sub)`: index of the last occurrence of
`sub` in `s`, or `-1` when there is none. -/
def pyRfind (s sub : List Char) : Int :=
  match (List.range (s.length + 1)).reverse.find? (fun i => sub.isPrefixOf (s.drop i)) with
  | some i => (i : Int)
  | none => -1

/-- Model of Python slicing `s[a:b]` (step 1), including negative indices
counted from the end, exactly as CPython clamps them. -/
def pySlice (s : List Char) (a b : Int) : List Char :=
  let n : Int := s.length
  let a2 : Int := if a < 0 then max 0 (n + a) else min a n
  let b2 : Int := if b < 0 then max 0 (n + b) else min b n
  (s.take b2.toNat).drop a2.toNat

/-- JSON values as produced by `json.loads`.  Integer literals become
`num`; decimal/exponent literals are kept symbolically in `fnum`
(mantissa sign+digits, fraction digits, optional exponent) so that no
floating-point arithmetic enters the model; the non-finite literals
`NaN`, `Infinity` and `-Infinity`, which `json.loads` accepts by
default (`allow_nan=True`), become `nan` and `inf`. -/
inductive Json where
  | null
  | bool (b : Bool)
  | num (n : Int)
  | fnum (m : Int) (frac : List Char) (ex : Option Int)
  | nan
  | inf (neg : Bool)
  | str (s : List Char)
  | arr (xs : List Json)
  | obj (fields : List (List Char × Json))

/-- JSON / `json.loads` whitespace. -/
def skipWs (s : List Char) : List Char :=
  s.dropWhile (fun c => c == ' ' || c == '\t' || c == '\n' || c == '\r')

/-- Value of a hexadecimal digit, if any. -/
def hexVal (c : Char) : Option Nat :=
  if '0' ≤ c ∧ c ≤ '9' then some (c.toNat - 48)
  else if 'a' ≤ c ∧ c ≤ 'f' then some (c.toNat - 87)
  else if 'A' ≤ c ∧ c ≤ 'F' then some (c.toNat - 55)
  else none

/-- Body of a JSON string literal after the opening quote: returns the
decoded characters and the remainder after the closing quote.  Handles
the standard escapes and `\uXXXX`; unescaped control characters are
rejected as `json.loads` does in strict mode. -/
def parseStringBody : Nat → List Char → Option (List Char × List Char)
  | 0, _ => none
  | _, [] => none
  | fuel + 1, c :: rest =>
    if c == '"' then some ([], rest)
    else if c == '\\' then
      match rest with
      | 'u' :: h1 :: h2 :: h3 :: h4 :: rest2 =>
        match hexVal h1, hexVal h2, hexVal h3, hexVal h4 with
        | some a, some b, some d, some e =>
          (parseStringBody fuel rest2).map
            (fun p => (Char.ofNat (((a * 16 + b) * 16 + d) * 16 + e) :: p.1, p.2))
        | _, _, _, _ => none
      | e :: rest2 =>
        let dec : Option Char :=
          if e == '"' then some '"'
          else if e == '\\' then some '\\'
          else if e == '/' then some '/'
          else if e == 'b' then some '\x08'
          else if e == 'f' then some '\x0c'
          else if e == 'n' then some '\n'
          else if e == 'r' then some '\r'
          else if e == 't' then some '\t'
          else none
        match dec with
        | some d => (parseStringBody fuel rest2).map (fun p => (d :: p.1, p.2))
        | none => none
      | [] => none
    else if c.toNat < 32 then none
    else (parseStringBody fuel rest).map (fun p => (c :: p.1, p.2))

/-- Split off a maximal run of decimal digits. -/
def spanDigits (s : List Char) : List Char × List Char :=
  (s.takeWhile Char.isDigit, s.dropWhile Char.isDigit)

/-- Numeric value of a digit run. -/
def digitsVal (ds : List Char) : Nat :=
  ds.foldl (fun a c => a * 10 + (c.toNat - 48)) 0

/-- Model of JSON number literals as accepted by `json.loads`:
optional minus, digits without a superfluous leading zero, optional
fraction and exponent.  Pure integer literals become `Json.num`;
anything with a fraction or exponent is kept symbolically as
`Json.fnum`. -/
def parseNumber (s : List Char) : Option (Json × List Char) :=
  let neg : Bool := match s with | '-' :: _ => true | _ => false
  let s1 : List Char := match s with | '-' :: r => r | _ => s
  let p := spanDigits s1
  if p.1 = [] then none
  else if 1 < p.1.length ∧ p.1.headI = '0' then none
  else
    let m : Int := if neg then -(digitsVal p.1 : Int) else (digitsVal p.1 : Int)
    let afterInt := p.2
    match afterInt with
    | '.' :: r =>
      let q := spanDigits r
      if q.1 = [] then none
      else
        (match q.2 with
         | 'e' :: r2 => (parseExp r2).map (fun pe => (Json.fnum m q.1 (some pe.1), pe.2))
         | 'E' :: r2 => (parseExp r2).map (fun pe => (Json.fnum m q.1 (some pe.1), pe.2))
         | _ => some (Json.fnum m q.1 none, q.2))
    | 'e' :: r2 => (parseExp r2).map (fun pe => (Json.fnum m [] (some pe.1), pe.2))
    | 'E' :: r2 => (parseExp r2).map (fun pe => (Json.fnum m [] (some pe.1), pe.2))
    | _ => some (Json.num m, afterInt)
where
  /-- Exponent part after `e`/`E`: optional sign then digits. -/
  parseExp (s : List Char) : Option (Int × List Char) :=
    let neg : Bool := match s with | '-' :: _ => true | _ => false
    let s1 : List Char := match s with | '-' :: r => r | '+' :: r => r | _ => s
    let p := spanDigits s1
    if p.1 = [] then none
    else some (if neg then -(digitsVal p.1 : Int) else (digitsVal p.1 : Int), p.2)

mutual

/-- Fuel-based recursive-descent parser for one JSON value, modelling
`json.loads`; returns the value and the unconsumed remainder. -/
def parseValueF : Nat → List Char → Option (Json × List Char)
  | 0, _ => none
  | fuel + 1, s =>
    match skipWs s with
    | 'n' :: 'u' :: 'l' :: 'l' :: r => some (Json.null, r)
    | 't' :: 'r' :: 'u' :: 'e' :: r => some (Json.bool true, r)
    | 'f' :: 'a' :: 'l' :: 's' :: 'e' :: r => some (Json.bool false, r)
    | 'N' :: 'a' :: 'N' :: r => some (Json.nan, r)
    | 'I' :: 'n' :: 'f' :: 'i' :: 'n' :: 'i' :: 't' :: 'y' :: r => some (Json.inf false, r)
    | '-' :: 'I' :: 'n' :: 'f' :: 'i' :: 'n' :: 'i' :: 't' :: 'y' :: r =>
      some (Json.inf true, r)
    | '"' :: r => (parseStringBody (fuel + 1) r).map (fun p => (Json.str p.1, p.2))
    | '[' :: r =>
      (match skipWs r with
       | ']' :: r2 => some (Json.arr [], r2)
       | _ => (parseElemsF fuel r).map (fun p => (Json.arr p.1, p.2)))
    | '\x7b' :: r =>
      (match skipWs r with
       | '\x7d' :: r2 => some (Json.obj [], r2)
       | _ => (parseMembersF fuel r).map (fun p => (Json.obj p.1, p.2)))
    | c :: r =>
      if c == '-' ∨ c.isDigit then parseNumber (c :: r) else none
    | [] => none

/-- Comma-separated JSON array elements up to the closing bracket. -/
def parseElemsF : Nat → List Char → Option (List Json × List Char)
  | 0, _ => none
  | fuel + 1, s =>
    match parseValueF fuel s with
    | none => none
    | some (v, r) =>
      match skipWs r with
      | ',' :: r2 => (parseElemsF fuel r2).map (fun p => (v :: p.1, p.2))
      | ']' :: r2 => some ([v], r2)
      | _ => none

/-- Comma-separated JSON object members up to the closing brace. -/
def parseMembersF : Nat → List Char → Option (List (List Char × Json) × List Char)
  | 0, _ => none
  | fuel + 1, s =>
    match skipWs s with
    | '"' :: r =>
      (match parseStringBody (fuel + 1) r with
       | none => none
       | some (k, r2) =>
         match skipWs r2 with
         | ':' :: r3 =>
           (match parseValueF fuel r3 with
            | none => none
            | some (v, r4) =>
              match skipWs r4 with
              | ',' :: r5 => (parseMembersF fuel r5).map (fun p => ((k, v) :: p.1, p.2))
              | '\x7d' :: r5 => some ([(k, v)], r5)
              | _ => none)
         | _ => none)
    | _ => none

end

/-- Model of `json.loads`: parse one value and demand that only
whitespace remains, failing (like `JSONDecodeError`) otherwise. -/
def parseJson (s : List Char) : Option Json :=
  match parseValueF (2 * s.length + 2) s with
  | some (v, r) => if skipWs r = [] then some v else none
  | none => none

/-- Python exceptions that can escape the code under verification.
`keyError`, `typeError` and `valueError` (the "Conflicting metadata
name" error) are raised by `pd.json_normalize`; `ioError` models an
`OSError` from opening/reading a file. -/
inductive PyExn where
  | keyError
  | typeError
  | valueError
  | ioError
  deriving DecidableEq

/-- Key `item_type` of a section object. -/
def typeKey : List Char := "item_type".data

/-- Key `items` of a section object. -/
def itemsKey : List Char := "items".data

/-- Key `item_name` of an item object. -/
def nameKey : List Char := "item_name".data

/-- Key `item_description` of an item object. -/
def descKey : List Char := "item_description".data

/-- Key `item_price` of an item object. -/
def priceKey : List Char := "item_price".data

/-- Key `item_portion` of an item object. -/
def portionKey : List Char := "item_portion".data

/-- Lookup in the field list of a parsed JSON object.  `json.loads`
builds a Python dict in which a duplicated key keeps its last value, so
the last matching binding wins. -/
def lookupField (fs : List (List Char × Json)) (k : List Char) : Option Json :=
  (fs.reverse.find? (fun p => p.1 == k)).map (fun p => p.2)

/-- One row of the flattened menu table produced by
`pd.json_normalize(menu_data, record_path=['items'], meta=['item_type'])`,
projected onto the expected columns.  A field absent from the item
object is `none` (NaN in the DataFrame). -/
structure MenuRow where
  item_name : Option Json
  item_description : Option Json
  item_price : Option Json
  item_portion : Option Json
  item_type : Json

/-- Value an item record puts into the bare column `k`.  Pandas runs
`nested_to_record` over every item record before building the
DataFrame: a key whose value is itself a dict is flattened into dotted
columns `k.<subkey>` (an empty dict vanishes entirely), so the bare
column `k` is absent — NaN — for that row; only a non-dict value is
stored under `k` itself. -/
def bareField (fs : List (List Char × Json)) (k : List Char) : Option Json :=
  match lookupField fs k with
  | some (Json.obj _) => none
  | v => v

/-- Row built from one element of a section's `items` list: the expected
item fields are looked up as bare columns (absent or dict-valued ones
stay `none`, as `json_normalize` fills NaN for columns a flattened
record lacks; a non-object item contributes none of the expected
columns), and the enclosing section's `item_type` is attached as the
meta column. -/
def itemRow (t : Json) (item : Json) : MenuRow :=
  match item with
  | Json.obj fs =>
    { item_name := bareField fs nameKey
      item_description := bareField fs descKey
      item_price := bareField fs priceKey
      item_portion := bareField fs portionKey
      item_type := t }
  | _ =>
    { item_name := none, item_description := none, item_price := none
      item_portion := none, item_type := t }

/-- Rows contributed by one section record, following
`pandas.io.json._normalize`: the record path `items` is pulled with
`errors='raise'` (missing key raises `KeyError`, a non-list non-null
value raises `TypeError`, an explicit null yields no records), then the
meta field `item_type` is pulled, also raising `KeyError` when absent;
a record that is not an object raises `TypeError` when indexed. -/
def sectionRows (j : Json) : Except PyExn (List MenuRow) :=
  match j with
  | Json.obj fs =>
    (match lookupField fs itemsKey with
     | none => Except.error PyExn.keyError
     | some (Json.arr xs) =>
       (match lookupField fs typeKey with
        | none => Except.error PyExn.keyError
        | some t => Except.ok (xs.map (itemRow t)))
     | some Json.null =>
       (match lookupField fs typeKey with
        | none => Except.error PyExn.keyError
        | some _ => Except.ok [])
     | some _ => Except.error PyExn.typeError)
  | _ => Except.error PyExn.typeError

/-- Process the section records in order; the first exception aborts the
whole `json_normalize` call, exactly as the Python loop would. -/
def sectionsRows : List Json → Except PyExn (List MenuRow)
  | [] => Except.ok []
  | s :: rest =>
    match sectionRows s with
    | Except.error e => Except.error e
    | Except.ok rs =>
      match sectionsRows rest with
      | Except.error e => Except.error e
      | Except.ok more => Except.ok (rs ++ more)

/-- The `item_type` value of a section object (defaulting to null). -/
def secType (s : Json) : Json :=
  match s with
  | Json.obj fs => (lookupField fs typeKey).getD Json.null
  | _ => Json.null

/-- The `items` list of a section object (defaulting to empty). -/
def secItems (s : Json) : List Json :=
  match s with
  | Json.obj fs =>
    (match lookupField fs itemsKey with
     | some (Json.arr xs) => xs
     | _ => [])
  | _ => []

/-- Whether one item record clashes with the meta name `item_type`.
After `nested_to_record` flattening, the columns of an item record are
its top-level keys with non-dict values plus dotted names
`<key>.<subkey>...` for dict values; a dotted name always contains a
dot, so the record contributes a column literally named `item_type`
exactly when it is an object whose `item_type` key holds a non-dict
value. -/
def itemConflicts (item : Json) : Bool :=
  match item with
  | Json.obj fs =>
    (match lookupField fs typeKey with
     | some (Json.obj _) => false
     | some _ => true
     | none => false)
  | _ => false

/-- The section loop of `json_normalize` followed by the meta-column
insertion: the per-section record and meta pulls run first (the first
`KeyError`/`TypeError` aborts), then, before `item_type` is inserted as
a column, pandas checks `if k in result` over the flattened records'
columns and raises `ValueError("Conflicting metadata name item_type")`
when any item record already carries that column. -/
def normalizeRecords (ss : List Json) : Except PyExn (List MenuRow) :=
  match sectionsRows ss with
  | Except.error e => Except.error e
  | Except.ok rows =>
    if ss.any (fun s => (secItems s).any itemConflicts) then Except.error PyExn.valueError
    else Except.ok rows

/-- Model of `pd.json_normalize(menu_data, record_path=['items'],
meta=['item_type'])`: a dict is treated as a one-element list of
records, a list is traversed in order, and any other payload raises
`TypeError`. -/
def json_normalize (v : Json) : Except PyExn (List MenuRow) :=
  match v with
  | Json.obj fs => normalizeRecords [Json.obj fs]
  | Json.arr ss => normalizeRecords ss
  | _ => Except.error PyExn.typeError

/-- The opening fence marker searched for by `process_image`. -/
def openTok : List Char := "```json".data

/-- The closing fence delimiter searched for by `process_image`. -/
def closeTok : List Char := "```".data

/-- The candidate JSON text sliced out of the model reply, exactly as in
`process_image` (src/main.py lines 116-118):
`response_content[response_content.find('```json') + len('```json') :
response_content.rfind('```')].strip()`.  Note that Python `find`/`rfind`
return `-1` when the substring is absent, and that value flows into the
slice unchecked. -/
def extractJson (content : List Char) : List Char :=
  pyStrip (pySlice content (pyFind content openTok + openTok.length) (pyRfind content closeTok))

/-- Model of `process_image` (src/main.py lines 108-138) from the point
where the API reply text is in hand: empty reply returns `None`; an
empty extracted candidate returns `None`; a `json.loads` failure is
caught (`JSONDecodeError`) and returns `None`; an exception raised by
`json_normalize` is not caught and propagates.  `Except.ok none` is the
Python `None` return, `Except.ok (some rows)` the returned DataFrame. -/
def processReply (content : List Char) : Except PyExn (Option (List MenuRow)) :=
  if content = [] then Except.ok none
  else
    let json_string := extractJson content
    if json_string = [] then Except.ok none
    else
      match parseJson json_string with
      | none => Except.ok none
      | some v =>
        match json_normalize v with
        | Except.ok rows => Except.ok (some rows)
        | Except.error e => Except.error e

/-- Outcome of the `chat.completions.create` call: either reply text
(the empty list also covers a `None` message content, both falsy in the
`if not response_content` check) or an `OpenAIError`, which the
`except OpenAIError` clause turns into a `None` return. -/
inductive ApiResult where
  | success (content : List Char)
  | apiError

/-- Model of the whole `OpenAIClient.process_image`: the
`encode_image` call (line 81) runs before the `try` block, so a file
read failure propagates to the caller; an `OpenAIError` from the API
call is caught and yields `None`; otherwise the reply is processed by
`processReply`. -/
def process_image (encodeResult : Except PyExn (List Char)) (api : ApiResult) :
    Except PyExn (Option (List MenuRow)) :=
  match encodeResult with
  | Except.error e => Except.error e
  | Except.ok _ =>
    match api with
    | ApiResult.apiError => Except.ok none
    | ApiResult.success content => processReply content

/-- File name written for page index `i` (0-based in the loop, 1-based
in the name), as in src/main.py line 48:
`f"{self.output_folder}/menu_section_page_{page_num + 1}.png"`. -/
def pageFileName (folder : List Char) (n : Nat) : List Char :=
  folder ++ "/menu_section_page_".data ++ (Nat.repr n).data ++ ".png".data

/-- Loop of `take_screenshots_of_menu_sections` over the document pages
starting at page index `i`.  Each `Bool` says whether rendering and
saving that page succeeds; a failing page raises, so the loop stops
there, keeping the files already written.  Returns the files created
and whether the loop ran to completion. -/
def rasterLoop (folder : List Char) : List Bool → Nat → List (List Char) × Bool
  | [], _ => ([], true)
  | ok :: rest, i =>
    if ok then
      let r := rasterLoop folder rest (i + 1)
      (pageFileName folder (i + 1) :: r.1, r.2)
    else ([], false)

/-- Model of `PDFProcessor.take_screenshots_of_menu_sections`
(src/main.py lines 32-54).  `doc = none` models `fitz.open` raising
(bad path / corrupt file).  The whole body is inside `try`, and any
exception is caught and turned into a `None` return; files saved before
the failure remain on disk.  Result: (files created, returned value). -/
def take_screenshots_of_menu_sections (folder : List Char) (doc : Option (List Bool)) :
    List (List Char) × Option (List Char) :=
  match doc with
  | none => ([], none)
  | some pages =>
    let r := rasterLoop folder pages 0
    (r.1, if r.2 then some folder else none)

/-- Recognised image extensions, as in src/main.py line 173:
`f.endswith(('.png', '.jpg', '.jpeg'))` — a case-sensitive suffix
check. -/
def endswithImageExtension (name : List Char) : Bool :=
  ".png".data.isSuffixOf name || ".jpg".data.isSuffixOf name || ".jpeg".data.isSuffixOf name

/-- Root part of `os.path.splitext`: the name up to the last dot,
provided some earlier character of the name is not itself a dot
(CPython keeps names consisting only of leading dots intact). -/
def splitextRoot (name : List Char) : List Char :=
  match pyRfind name ['.'] with
  | Int.ofNat i => if (name.take i).any (fun c => c != '.') then name.take i else name
  | _ => name

/-- CSV file name derived from an image file name, src/main.py line 180:
`os.path.splitext(filename)[0] + '.csv'`. -/
def csvName (f : List Char) : List Char := splitextRoot f ++ ".csv".data

/-- One per-image CSV file written by the orchestrator: the image it
came from, the file name, and the table stored in it. -/
structure SavedCsv where
  source : List Char
  file : List Char
  table : List MenuRow

/-- The body of the `for i, filename in enumerate(image_files)` loop of
`process_images_in_folder` (src/main.py lines 176-187), run from index
`i`: a non-`None` client result is written as a per-image CSV, a `None`
result writes nothing, and the progress bar is updated with the
arguments `(i + 1, total)` of `(i + 1) / total_files` after every image
either way.  Returns (files written, progress updates). -/
def orchLoop (client : List Char → Option (List MenuRow)) (total : Nat) :
    List (List Char) → Nat → List SavedCsv × List (Nat × Nat)
  | [], _ => ([], [])
  | f :: rest, i =>
    let r := orchLoop client total rest (i + 1)
    match client f with
    | some df => (⟨f, csvName f, df⟩ :: r.1, (i + 1, total) :: r.2)
    | none => (r.1, (i + 1, total) :: r.2)

/-- Observable outcome of `CSVProcessor.process_images_in_folder`: the
per-image CSV files written and the progress updates issued. -/
structure OrchOut where
  saved : List SavedCsv
  progress : List (Nat × Nat)

/-- Model of `CSVProcessor.process_images_in_folder` (src/main.py lines
156-189): filter the directory listing to recognised image files,
then run the per-image loop.  `client f` is the result of
`client.process_image` on image `f` (`none` = the Python `None`
sentinel). -/
def process_images_in_folder (listing : List (List Char))
    (client : List Char → Option (List MenuRow)) : OrchOut :=
  let image_files := listing.filter endswithImageExtension
  let r := orchLoop client image_files.length image_files 0
  ⟨r.1, r.2⟩

/-- The fraction `(i + 1) / total_files` passed to
`progress_bar.progress`. -/
def progressFraction (p : Nat × Nat) : ℚ := (p.1 : ℚ) / (p.2 : ℚ)

/-- Model of `CSVProcessor.combine_csvs` (src/main.py lines 203-211):
every `.csv` file of the output folder is read back and concatenated
with `ignore_index=True`, preserving each file's row order.  The files
are traversed in the order given (the source uses `os.listdir` order;
the claims about the combined table do not depend on which order that
is).  Reading the per-image files back is modelled at table level. -/
def combine_csvs (files : List SavedCsv) : List MenuRow :=
  (files.filter (fun e => ".csv".data.isSuffixOf e.file)).flatMap (fun e => e.table)

/-- State of the bounding-box annotator (src/boundingbox.py): the
coordinates recorded by the last button press (initially Python `None`)
and the list of committed boxes.  Canvas drawing is display-only and
not part of the state.  `savedFiles` records the list written by each
press of the Save button. -/
structure BBState where
  start_x : Option Int
  start_y : Option Int
  bboxes : List (Option Int × Option Int × Int × Int)
  savedFiles : List (List (Option Int × Option Int × Int × Int))

/-- Initial annotator state, from `BoundingBoxApp.__init__`. -/
def initBB : BBState := ⟨none, none, [], []⟩

/-- The user events the annotator handles. -/
inductive BBEvent where
  | press (x y : Int)
  | drag (x y : Int)
  | release (x y : Int)
  | save

/-- One event-handler step of `BoundingBoxApp`: `on_button_press`
records the start coordinates (and draws a rectangle on the canvas),
`on_mouse_drag` only updates the canvas, `on_button_release` appends
`(start_x, start_y, end_x, end_y)` to `bboxes`, and `save_bboxes`
writes the current list to the JSON file without modifying it. -/
def bbStep (s : BBState) : BBEvent → BBState
  | BBEvent.press x y => { s with start_x := some x, start_y := some y }
  | BBEvent.drag _ _ => s
  | BBEvent.release x y => { s with bboxes := s.bboxes ++ [(s.start_x, s.start_y, x, y)] }
  | BBEvent.save => { s with savedFiles := s.savedFiles ++ [s.bboxes] }

/-- Run a list of events through the annotator. -/
def runBB (s : BBState) (es : List BBEvent) : BBState := es.foldl bbStep s

/-- One complete press-drag-release mouse sequence. -/
structure DragSeq where
  sx : Int
  sy : Int
  drags : List (Int × Int)
  ex : Int
  ey : Int

/-- The events generated by one complete press-drag-release sequence. -/
def seqEvents (q : DragSeq) : List BBEvent :=
  BBEvent.press q.sx q.sy ::
    (q.drags.map (fun p => BBEvent.drag p.1 p.2) ++ [BBEvent.release q.ex q.ey])

/-- One cell of a table as stored for CSV serialization: `na` is a
missing value (NaN or Python `None` — both satisfy `pd.isna` and are
written identically), `s` a string, and `coerced raw` marks a field on
which `read_csv` dtype inference fires (integer, float or boolean
text): the numeric value it produces is outside the embedding
(floating point is not embedded), so only the raw text is recorded.
`CellSafe` below excludes such cells from the tables the round-trip
claim quantifies over. -/
inductive Cell where
  | na
  | s (v : List Char)
  | coerced (raw : List Char)
  deriving DecidableEq

/-- Characters that force `to_csv` (csv.QUOTE_MINIMAL) to quote a
field. -/
def isCsvSpecial (c : Char) : Bool :=
  c == ',' || c == '"' || c == '\n' || c == '\r'

/-- Double every quote of a field body, as the csv writer does. -/
def escapeQ (v : List Char) : List Char :=
  v.flatMap (fun c => if c == '"' then ['"', '"'] else [c])

/-- Wrap a field body in quotes, doubling inner quotes. -/
def quoteField (v : List Char) : List Char :=
  '"' :: (escapeQ v ++ ['"'])

/-- Write one field with minimal quoting: quoted exactly when it
contains a separator, quote or line break.  Note an empty string is
written as nothing — indistinguishable from a missing value. -/
def writeField (v : List Char) : List Char :=
  if v.any isCsvSpecial then quoteField v else v

/-- The raw text content of a cell: a missing value is written with the
default `na_rep=''`.  A `coerced` cell never occurs in the tables the
claims write (`CellSafe` rules it out, since pandas would print the
parsed numeric value, not the original text); its raw text stands in to
keep the function total. -/
def cellRaw : Cell → List Char
  | Cell.na => []
  | Cell.s v => v
  | Cell.coerced raw => raw

/-- Comma-join the encoded fields of one record. -/
def writeRecord : List (List Char) → List Char
  | [] => []
  | [f] => f
  | f :: g :: t => f ++ ',' :: writeRecord (g :: t)

/-- Encode records as lines, each terminated by a newline, as
`DataFrame.to_csv` does. -/
def encodeRows (rss : List (List (List Char))) : List Char :=
  rss.flatMap (fun vs => writeRecord (vs.map writeField) ++ ['\n'])

/-- Model of `combined_df.to_csv(path, index=False)`: a header line
with the column names followed by one line per row. -/
def to_csv (header : List (List Char)) (rows : List (List Cell)) : List Char :=
  encodeRows (header :: rows.map (fun r => r.map cellRaw))

/-- Scan the body of a quoted CSV field after the opening quote:
a doubled quote is a literal quote, a single quote closes the field.
Returns the decoded body and the remainder, or `none` if the field is
unterminated. -/
def scanQuoted : List Char → Option (List Char × List Char)
  | [] => none
  | c :: rest =>
    if c == '"' then
      match rest with
      | r :: rest2 =>
        if r == '"' then (scanQuoted rest2).map (fun p => ('"' :: p.1, p.2))
        else some ([], r :: rest2)
      | [] => some ([], [])
    else (scanQuoted rest).map (fun p => (c :: p.1, p.2))

/-- A character ending an unquoted field. -/
def isFieldSep (c : Char) : Bool := c == ',' || c == '\n'

/-- Parse one CSV field: a leading quote opens a quoted field
(an unterminated one degenerates to the rest of the input), anything
else runs to the next separator.  Returns the decoded field and the
remainder starting at the separator. -/
def parseField (s : List Char) : List Char × List Char :=
  match s with
  | c :: rest =>
    if c == '"' then
      (match scanQuoted rest with
       | some p => p
       | none => (rest, []))
    else ((c :: rest).takeWhile (fun x => !isFieldSep x),
          (c :: rest).dropWhile (fun x => !isFieldSep x))
  | [] => ([], [])

/-- Parse the fields of one record up to and including its newline (or
the end of input). -/
def parseRecordF : Nat → List Char → List (List Char) × List Char
  | 0, s => ([], s)
  | fuel + 1, s =>
    match parseField s with
    | (v, c :: r2) =>
      if c == ',' then
        (v :: (parseRecordF fuel r2).1, (parseRecordF fuel r2).2)
      else if c == '\n' then ([v], r2)
      else ([v], [])
    | (v, []) => ([v], [])

/-- Parse all records of a CSV file; a blank line (one empty field) is
skipped, as `read_csv` does with `skip_blank_lines=True`. -/
def parseRecordsF : Nat → List Char → List (List (List Char))
  | 0, _ => []
  | fuel + 1, s =>
    if s = [] then []
    else
      let q := parseRecordF (s.length + 1) s
      let rest := parseRecordsF fuel q.2
      if q.1 = [[]] then rest else q.1 :: rest

/-- The default `na_values` tokens `read_csv` converts to NaN. -/
def naTokens : List (List Char) :=
  ["", "#N/A", "#N/A N/A", "#NA", "-1.#IND", "-1.#QNAN", "-NaN", "-nan",
   "1.#IND", "1.#QNAN", "<NA>", "N/A", "NA", "NULL", "NaN", "None",
   "n/a", "nan", "null"].map String.data

/-- Whether `read_csv` would infer an integer from this field. -/
def intLike (s : List Char) : Bool :=
  match s with
  | '-' :: r => !r.isEmpty && r.all Char.isDigit
  | '+' :: r => !r.isEmpty && r.all Char.isDigit
  | _ => !s.isEmpty && s.all Char.isDigit

/-- Lower-case a field for the case-insensitive infinity spellings. -/
def lowerStr (s : List Char) : List Char := s.map Char.toLower

/-- Digits of an exponent after `e`/`E`: optional sign then a non-empty
digit run ending the field. -/
def expDigitsOk (r : List Char) : Bool :=
  let r2 : List Char := match r with | '+' :: x => x | '-' :: x => x | _ => r
  let q := spanDigits r2
  !q.1.isEmpty && q.2.isEmpty

/-- Whether `read_csv` numeric conversion would parse this field as a
float: optional sign, then either an `inf`/`infinity` spelling or a
decimal mantissa (digits with an optional point, at least one digit)
with an optional exponent. -/
def floatLike (s : List Char) : Bool :=
  let t : List Char := match s with | '+' :: r => r | '-' :: r => r | _ => s
  if lowerStr t == "inf".data || lowerStr t == "infinity".data then true
  else
    let p := spanDigits t
    let afterMant : Option (List Char) :=
      match p.2 with
      | '.' :: r =>
        let q := spanDigits r
        if p.1.isEmpty && q.1.isEmpty then none else some q.2
      | _ => if p.1.isEmpty then none else some p.2
    match afterMant with
    | none => false
    | some rest =>
      match rest with
      | [] => true
      | 'e' :: r => expDigitsOk r
      | 'E' :: r => expDigitsOk r
      | _ => false

/-- Whether `read_csv` boolean conversion accepts this field (the
parser's true/false sets cover the capitalised, upper-case and
lower-case spellings). -/
def boolLike (s : List Char) : Bool :=
  s == "True".data || s == "TRUE".data || s == "true".data ||
    s == "False".data || s == "FALSE".data || s == "false".data

/-- Value `read_csv` stores for one data field: an `na_values` token
becomes NaN; integer-, float- or boolean-looking text is converted to a
non-string dtype, recorded here as `coerced` (the numeric value itself
is outside the embedding; pandas applies the conversion per column, but
on the tables the claims quantify over — no coercible text at all —
the per-cell and per-column readings coincide); anything else stays a
string. -/
def readCell (raw : List Char) : Cell :=
  if naTokens.contains raw then Cell.na
  else if intLike raw || floatLike raw || boolLike raw then Cell.coerced raw
  else Cell.s raw

/-- Model of `pd.read_csv(path)`: split the file into records, take the
first as the header (an empty file raises `EmptyDataError`, returned as
`none`), and convert the data fields. -/
def read_csv (s : List Char) : Option (List (List Char) × List (List Cell)) :=
  match parseRecordsF (s.length + 1) s with
  | [] => none
  | h :: rows => some (h, rows.map (fun r => r.map readCell))

/-- Cells whose written form `read_csv` maps back to the same cell:
missing values, and strings that are not an `na_values` token (this
rules out the empty string) and would not be converted by integer,
float or boolean dtype inference.  A `coerced` cell is never safe: the
text pandas would write for the converted value need not be the
original text. -/
def CellSafe : Cell → Prop
  | Cell.na => True
  | Cell.s v =>
    naTokens.contains v = false ∧ intLike v = false ∧
      floatLike v = false ∧ boolLike v = false
  | Cell.coerced _ => False

instance : DecidablePred CellSafe := fun c =>
  match c with
  | Cell.na => Decidable.isTrue trivial
  | Cell.s v => inferInstanceAs (Decidable (_ ∧ _ ∧ _ ∧ _))
  | Cell.coerced _ => Decidable.isFalse (fun h => h)

/-- Column order of the combined menu table: the item record fields in
order of first appearance, then the meta column, as `json_normalize`
lays them out. -/
def menuColumns : List (List Char) :=
  [nameKey, descKey, priceKey, portionKey, typeKey]

/-- A parsed section of the shape the prompt requests: an object whose
`item_type` key is present and whose `items` key holds a list. -/
def secShape (s : Json) : Prop :=
  ∃ fs, s = Json.obj fs ∧ (∃ t, lookupField fs typeKey = some t) ∧
    (∃ its, lookupField fs itemsKey = some (Json.arr its))

/-
Theorems.
-/

/-- C1, counterexample.  The reply `ABCDEF[]Z` contains neither the
opening fence marker nor any closing fence delimiter, so the claim
mandates a `None` return; but `find`/`rfind` return `-1`, the slice
becomes `content[6:-1] = "[]"`, which parses as JSON, and
`process_image` returns a (here empty) DataFrame instead of `None`. -/
theorem processReply_missing_fence_counterexample :
    processReply ("ABCDEF[]Z".data) = Except.ok (some []) ∧
      processReply ("ABCDEF[]Z".data) ≠ Except.ok none := by
  refine ⟨rfl, ?_⟩
  intro h
  rw [show processReply ("ABCDEF[]Z".data) = Except.ok (some []) from rfl] at h
  exact Option.noConfusion (Except.ok.inj h)

/-- C1, amended.  `process_image` returns `None` whenever the candidate
text sliced between `find('```json') + 7` and `rfind('```')` is empty
after trimming — which covers every reply whose closing delimiter is
absent — or fails to parse as JSON; the absence of the fence markers is
not itself detected (`find` returning `-1` flows into the slice). -/
theorem processReply_none_on_empty_or_unparsable (content : List Char)
    (h : extractJson content = [] ∨ parseJson (extractJson content) = none) :
    processReply content = Except.ok none := by
  by_cases hc : content = []
  · subst hc; rfl
  · unfold processReply
    rw [if_neg hc]
    by_cases he : extractJson content = []
    · simp [he]
    · rcases h with h | h
      · exact absurd h he
      · simp [he, h]

/-- Witness for the amended C1 theorem at the fenceless reply `abc`:
the slice `content[6:-1]` is empty, and the result is `None`. -/
theorem processReply_none_on_empty_or_unparsable_witness :
    (extractJson ("abc".data) = [] ∨ parseJson (extractJson ("abc".data)) = none) ∧
      processReply ("abc".data) = Except.ok none :=
  ⟨Or.inl rfl, processReply_none_on_empty_or_unparsable ("abc".data) (Or.inl rfl)⟩

/-- C2, counterexample.  The fenced reply parses to one section that
has `item_type` but no `items` key; the claim says flattening yields no
rows for it rather than raising, but `pd.json_normalize` with
`record_path=['items']` raises `KeyError`, which `process_image` does
not catch. -/
theorem json_normalize_missing_items_raises :
    processReply ("```json [\x7b\"item_type\": \"X\"\x7d]```".data) =
        Except.error PyExn.keyError ∧
      ∀ o : Option (List MenuRow),
        processReply ("```json [\x7b\"item_type\": \"X\"\x7d]```".data) ≠ Except.ok o := by
  refine ⟨rfl, ?_⟩
  intro o h
  rw [show processReply ("```json [\x7b\"item_type\": \"X\"\x7d]```".data) =
      Except.error PyExn.keyError from rfl] at h
  exact Except.noConfusion h

/-- C2, amended.  In a successfully parsed reply, a section whose
`items` value is an empty list contributes no rows; a section missing
the `items` key raises an uncaught `KeyError`; an item object missing
`item_description` / `item_price` / `item_portion` — and not itself
carrying the meta name `item_type` as a bare column — yields a row with
an explicit absent value (`none`) for that field (its expected fields
also come back `none` when they hold nested objects, which pandas
flattens into dotted columns); but an item record whose `item_type` key
holds a non-object value makes `json_normalize` raise an uncaught
"Conflicting metadata name" `ValueError` instead of producing rows. -/
theorem flatten_empty_items_and_missing_fields :
    (∀ fs t, lookupField fs itemsKey = some (Json.arr []) →
        lookupField fs typeKey = some t →
        json_normalize (Json.arr [Json.obj fs]) = Except.ok []) ∧
    (∀ fs, lookupField fs itemsKey = none →
        json_normalize (Json.arr [Json.obj fs]) = Except.error PyExn.keyError) ∧
    (∀ t ifs, lookupField ifs typeKey = none → lookupField ifs descKey = none →
        json_normalize (Json.arr [Json.obj [(typeKey, t), (itemsKey, Json.arr [Json.obj ifs])]]) =
          Except.ok [itemRow t (Json.obj ifs)]) ∧
    (∀ t ifs, lookupField ifs descKey = none →
        (itemRow t (Json.obj ifs)).item_description = none) ∧
    (∀ t ifs, lookupField ifs priceKey = none →
        (itemRow t (Json.obj ifs)).item_price = none) ∧
    (∀ t ifs, lookupField ifs portionKey = none →
        (itemRow t (Json.obj ifs)).item_portion = none) ∧
    (∀ fs t ifs v, lookupField fs itemsKey = some (Json.arr [Json.obj ifs]) →
        lookupField fs typeKey = some t →
        lookupField ifs typeKey = some v → (∀ gs, v ≠ Json.obj gs) →
        json_normalize (Json.arr [Json.obj fs]) = Except.error PyExn.valueError) := by
  refine ⟨?_, ?_, ?_, ?_, ?_, ?_, ?_⟩
  · intro fs t h1 h2
    have e3 : secItems (Json.obj fs) = [] := by
      show (match lookupField fs itemsKey with
            | some (Json.arr xs) => xs
            | _ => []) = []
      rw [h1]
    simp [json_normalize, normalizeRecords, sectionsRows, sectionRows, h1, h2, e3]
  · intro fs h
    simp [json_normalize, normalizeRecords, sectionsRows, sectionRows, h]
  · intro t ifs h1 h2
    have e1 : lookupField [(typeKey, t), (itemsKey, Json.arr [Json.obj ifs])] itemsKey =
        some (Json.arr [Json.obj ifs]) := rfl
    have e2 : lookupField [(typeKey, t), (itemsKey, Json.arr [Json.obj ifs])] typeKey =
        some t := rfl
    have e3 : secItems (Json.obj [(typeKey, t), (itemsKey, Json.arr [Json.obj ifs])]) =
        [Json.obj ifs] := rfl
    have hcf : itemConflicts (Json.obj ifs) = false := by
      show (match lookupField ifs typeKey with
            | some (Json.obj _) => false
            | some _ => true
            | none => false) = false
      rw [h1]
    simp [json_normalize, normalizeRecords, sectionsRows, sectionRows, e1, e2, e3, hcf]
  · intro t ifs h
    show (match lookupField ifs descKey with
          | some (Json.obj _) => none
          | v => v) = none
    rw [h]
  · intro t ifs h
    show (match lookupField ifs priceKey with
          | some (Json.obj _) => none
          | v => v) = none
    rw [h]
  · intro t ifs h
    show (match lookupField ifs portionKey with
          | some (Json.obj _) => none
          | v => v) = none
    rw [h]
  · intro fs t ifs v h1 h2 h3 hv
    have hconf : itemConflicts (Json.obj ifs) = true := by
      show (match lookupField ifs typeKey with
            | some (Json.obj _) => false
            | some _ => true
            | none => false) = true
      rw [h3]
      cases v
      case obj gs => exact absurd rfl (hv gs)
      all_goals rfl
    have e3 : secItems (Json.obj fs) = [Json.obj ifs] := by
      show (match lookupField fs itemsKey with
            | some (Json.arr xs) => xs
            | _ => []) = [Json.obj ifs]
      rw [h1]
    simp [json_normalize, normalizeRecords, sectionsRows, sectionRows, h1, h2, e3, hconf]

/-- Witness for the amended C2 theorem on concrete section and item
objects, including one item that carries the conflicting `item_type`
key. -/
theorem flatten_empty_items_and_missing_fields_witness :
    json_normalize (Json.arr [Json.obj [(typeKey, Json.null), (itemsKey, Json.arr [])]]) =
        Except.ok [] ∧
    json_normalize (Json.arr [Json.obj [(typeKey, Json.null)]]) =
        Except.error PyExn.keyError ∧
    json_normalize (Json.arr [Json.obj [(typeKey, Json.null),
        (itemsKey, Json.arr [Json.obj [(nameKey, Json.str [])]])]]) =
      Except.ok [itemRow Json.null (Json.obj [(nameKey, Json.str [])])] ∧
    (itemRow Json.null (Json.obj [(nameKey, Json.str [])])).item_description = none ∧
    (itemRow Json.null (Json.obj [(nameKey, Json.str [])])).item_price = none ∧
    (itemRow Json.null (Json.obj [(nameKey, Json.str [])])).item_portion = none ∧
    json_normalize (Json.arr [Json.obj [(typeKey, Json.str "X".data),
        (itemsKey, Json.arr [Json.obj [(typeKey, Json.str "Y".data)]])]]) =
      Except.error PyExn.valueError :=
  ⟨flatten_empty_items_and_missing_fields.1 _ Json.null rfl rfl,
   flatten_empty_items_and_missing_fields.2.1 _ rfl,
   flatten_empty_items_and_missing_fields.2.2.1 Json.null _ rfl rfl,
   flatten_empty_items_and_missing_fields.2.2.2.1 Json.null _ rfl,
   flatten_empty_items_and_missing_fields.2.2.2.2.1 Json.null _ rfl,
   flatten_empty_items_and_missing_fields.2.2.2.2.2.1 Json.null _ rfl,
   flatten_empty_items_and_missing_fields.2.2.2.2.2.2 _ (Json.str "X".data) _
     (Json.str "Y".data) rfl rfl rfl (fun gs h => Json.noConfusion h)⟩

/-- C8.  The `encode_image` call sits on line 81, before the `try`
block of `process_image`, so a failure to read the image file
propagates to the caller, while an `OpenAIError` raised inside the
`try` is caught and converted to the `None` sentinel. -/
theorem process_image_read_error_propagates :
    (∀ (e : PyExn) (api : ApiResult), process_image (Except.error e) api = Except.error e) ∧
    (∀ content : List Char,
        process_image (Except.ok content) ApiResult.apiError = Except.ok none) :=
  ⟨fun _ _ => rfl, fun _ => rfl⟩

/-- Running the annotator over concatenated event lists composes. -/
theorem runBB_append (s : BBState) (es1 es2 : List BBEvent) :
    runBB s (es1 ++ es2) = runBB (runBB s es1) es2 :=
  List.foldl_append bbStep s es1 es2

/-- Drag events alone leave the annotator state untouched. -/
theorem runBB_drags (s : BBState) (drags : List (Int × Int)) :
    runBB s (drags.map (fun p => BBEvent.drag p.1 p.2)) = s := by
  induction drags with
  | nil => rfl
  | cons d rest ih => simpa [runBB, bbStep] using ih

/-- Effect of one complete press-drag-release sequence on the
annotator state. -/
theorem runBB_seq (s : BBState) (q : DragSeq) :
    runBB s (seqEvents q) =
      { s with start_x := some q.sx, start_y := some q.sy,
               bboxes := s.bboxes ++ [(some q.sx, some q.sy, q.ex, q.ey)] } := by
  have h1 : runBB s (seqEvents q) =
      runBB (runBB (bbStep s (BBEvent.press q.sx q.sy))
          (q.drags.map (fun p => BBEvent.drag p.1 p.2)))
        [BBEvent.release q.ex q.ey] := by
    simp [seqEvents, runBB, List.foldl_append]
  rw [h1, runBB_drags]
  rfl

/-- C9.  Each complete press-drag-release sequence appends exactly one
tuple `(start_x, start_y, end_x, end_y)` to the bounding-box list —
after the `k` sequences of `seqs` the list holds exactly their `k`
tuples in drawing order — while a press, a drag or a save on its own
appends, removes and modifies nothing. -/
theorem bbox_sequences_append_in_order (seqs : List DragSeq) (s : BBState) :
    (runBB s (seqs.flatMap seqEvents)).bboxes =
        s.bboxes ++ seqs.map (fun q => (some q.sx, some q.sy, q.ex, q.ey)) ∧
    (∀ x y : Int, (bbStep s (BBEvent.press x y)).bboxes = s.bboxes) ∧
    (∀ x y : Int, (bbStep s (BBEvent.drag x y)).bboxes = s.bboxes) ∧
    (bbStep s BBEvent.save).bboxes = s.bboxes := by
  refine ⟨?_, fun _ _ => rfl, fun _ _ => rfl, rfl⟩
  induction seqs generalizing s with
  | nil => simp [runBB]
  | cons q rest ih =>
    rw [List.flatMap_cons, runBB_append, runBB_seq]
    rw [ih]
    simp

/-- The per-image CSV files written by the orchestrator loop are
exactly the images on which the client returned a table, in listing
order, independently of the loop index and total. -/
theorem orchLoop_saved (client : List Char → Option (List MenuRow)) (total : Nat)
    (l : List (List Char)) (i : Nat) :
    (orchLoop client total l i).1 =
      l.filterMap (fun g => (client g).map (fun df => ⟨g, csvName g, df⟩)) := by
  induction l generalizing i with
  | nil => rfl
  | cons f rest ih =>
    rw [List.filterMap_cons]
    cases hf : client f with
    | none => simpa [orchLoop, hf] using ih (i + 1)
    | some df => simpa [orchLoop, hf] using ih (i + 1)

/-- The orchestrator loop updates the progress bar once per image,
with the arguments of `(i + 1) / total_files`, whatever the client
returns. -/
theorem orchLoop_progress (client : List Char → Option (List MenuRow)) (total : Nat)
    (l : List (List Char)) (i : Nat) :
    (orchLoop client total l i).2 =
      (List.range l.length).map (fun k => (i + k + 1, total)) := by
  induction l generalizing i with
  | nil => rfl
  | cons f rest ih =>
    have step : (orchLoop client total (f :: rest) i).2 =
        (i + 1, total) :: (orchLoop client total rest (i + 1)).2 := by
      cases hf : client f <;> simp [orchLoop, hf]
    rw [step, ih (i + 1), List.length_cons, List.range_succ_eq_map, List.map_cons,
      List.map_map]
    refine congrArg₂ List.cons rfl ?_
    refine List.map_congr_left ?_
    intro k _
    simp only [Function.comp_apply]
    exact congrArg (fun z => (z, total)) (by omega)

/-- Filtering a failed image out of the listing leaves the written
per-image tables unchanged. -/
theorem filterMap_filter_out {α β : Type} [BEq α] [LawfulBEq α] (F : α → Option β) (f : α)
    (hF : F f = none) (l : List α) :
    (l.filter (fun g => !(g == f))).filterMap F = l.filterMap F := by
  induction l with
  | nil => rfl
  | cons g rest ih =>
    by_cases hg : g = f
    · subst hg
      simp [List.filter_cons, List.filterMap_cons, hF, ih]
    · simp [List.filter_cons, List.filterMap_cons, hg, ih]

/-- C4.  When the client returns the `None` sentinel for an image, the
orchestrator writes no per-image CSV for that image, the combined table
equals the one obtained with that image removed from the listing, and
the loop still processes (and reports progress for) every listed
image. -/
theorem orchestrator_skips_failed_image (listing : List (List Char))
    (client : List Char → Option (List MenuRow)) (f : List Char)
    (hf : f ∈ listing.filter endswithImageExtension) (hc : client f = none) :
    (∀ e ∈ (process_images_in_folder listing client).saved, e.source ≠ f) ∧
    combine_csvs (process_images_in_folder listing client).saved =
      combine_csvs
        (process_images_in_folder (listing.filter (fun g => !(g == f))) client).saved ∧
    (process_images_in_folder listing client).progress.length =
      (listing.filter endswithImageExtension).length := by
  refine ⟨?_, ?_, ?_⟩
  · intro e he
    rw [show (process_images_in_folder listing client).saved =
        (listing.filter endswithImageExtension).filterMap
          (fun g => (client g).map (fun df => ⟨g, csvName g, df⟩)) from
      orchLoop_saved client _ _ 0] at he
    rcases List.mem_filterMap.mp he with ⟨g, _, hg⟩
    cases hcg : client g with
    | none => rw [hcg] at hg; exact Option.noConfusion hg
    | some df =>
      rw [hcg] at hg
      have hsrc : e.source = g := by
        cases hg' : (Option.some df).map (fun df => (⟨g, csvName g, df⟩ : SavedCsv)) with
        | none => rw [hg'] at hg; exact Option.noConfusion hg
        | some e2 =>
          rw [hg'] at hg
          cases Option.some.inj hg
          cases Option.some.inj hg'
          rfl
      intro hef
      rw [hef] at hsrc
      rw [← hsrc] at hcg
      rw [hc] at hcg
      exact Option.noConfusion hcg
  · have h1 := orchLoop_saved client (listing.filter endswithImageExtension).length
      (listing.filter endswithImageExtension) 0
    have h2 := orchLoop_saved client
      ((listing.filter (fun g => !(g == f))).filter endswithImageExtension).length
      ((listing.filter (fun g => !(g == f))).filter endswithImageExtension) 0
    show combine_csvs (orchLoop client _ _ 0).1 = combine_csvs (orchLoop client _ _ 0).1
    rw [h1, h2]
    have hcomm : (listing.filter (fun g => !(g == f))).filter endswithImageExtension =
        (listing.filter endswithImageExtension).filter (fun g => !(g == f)) := by
      rw [List.filter_filter, List.filter_filter]
      exact List.filter_congr (fun g _ => Bool.and_comm _ _)
    have key := filterMap_filter_out
      (fun g => (client g).map (fun df => (⟨g, csvName g, df⟩ : SavedCsv))) f
      (by simp [hc]) (listing.filter endswithImageExtension)
    rw [hcomm, key]
  · rw [show (process_images_in_folder listing client).progress =
        (orchLoop client (listing.filter endswithImageExtension).length
          (listing.filter endswithImageExtension) 0).2 from rfl,
      orchLoop_progress, List.length_map, List.length_range]

/-- Witness for C4: in a listing of three files, `a.png` fails,
`b.txt` is not an image, `c.jpg` succeeds. -/
theorem orchestrator_skips_failed_image_witness :
    ("a.png".data ∈ ["a.png".data, "b.txt".data, "c.jpg".data].filter endswithImageExtension) ∧
    ((fun g => if g == "c.jpg".data then some ([] : List MenuRow) else none) "a.png".data
        = none) ∧
    ((∀ e ∈ (process_images_in_folder ["a.png".data, "b.txt".data, "c.jpg".data]
          (fun g => if g == "c.jpg".data then some ([] : List MenuRow) else none)).saved,
        e.source ≠ "a.png".data) ∧
      combine_csvs (process_images_in_folder ["a.png".data, "b.txt".data, "c.jpg".data]
          (fun g => if g == "c.jpg".data then some ([] : List MenuRow) else none)).saved =
        combine_csvs (process_images_in_folder
            (["a.png".data, "b.txt".data, "c.jpg".data].filter (fun g => !(g == "a.png".data)))
            (fun g => if g == "c.jpg".data then some ([] : List MenuRow) else none)).saved ∧
      (process_images_in_folder ["a.png".data, "b.txt".data, "c.jpg".data]
          (fun g => if g == "c.jpg".data then some ([] : List MenuRow) else none)).progress.length =
        (["a.png".data, "b.txt".data, "c.jpg".data].filter endswithImageExtension).length) :=
  ⟨by decide, rfl,
    orchestrator_skips_failed_image _ _ _ (by decide) rfl⟩

/-- C5.  A directory with no recognised image file (the suffix match is
case-sensitive) yields no per-image tables, no progress update — so the
division `(i + 1) / total_files` is never evaluated — and an empty
combined table, with no exception anywhere. -/
theorem orchestrator_no_images_empty (listing : List (List Char))
    (client : List Char → Option (List MenuRow))
    (h : ∀ f ∈ listing, endswithImageExtension f = false) :
    (process_images_in_folder listing client).saved = [] ∧
    (process_images_in_folder listing client).progress = [] ∧
    combine_csvs (process_images_in_folder listing client).saved = [] := by
  have hnil : listing.filter endswithImageExtension = [] := by
    rw [List.filter_eq_nil_iff]
    intro a ha
    rw [h a ha]
    exact Bool.false_ne_true
  refine ⟨?_, ?_, ?_⟩ <;> simp [process_images_in_folder, hnil, orchLoop, combine_csvs]

/-- Witness for C5: a listing with a text file and an upper-case
`.PNG` file, neither of which matches the case-sensitive suffixes. -/
theorem orchestrator_no_images_empty_witness :
    (∀ f ∈ ["readme.md".data, "scan.PNG".data], endswithImageExtension f = false) ∧
    ((process_images_in_folder ["readme.md".data, "scan.PNG".data]
        (fun _ => some [])).saved = [] ∧
      (process_images_in_folder ["readme.md".data, "scan.PNG".data]
        (fun _ => some [])).progress = [] ∧
      combine_csvs (process_images_in_folder ["readme.md".data, "scan.PNG".data]
        (fun _ => some [])).saved = []) :=
  ⟨by decide, orchestrator_no_images_empty _ _ (by decide)⟩

/-- C10.  The orchestrator reports progress `(i + 1) / total` after
every image whether or not its extraction succeeded, and when at least
one image is listed the last reported fraction is exactly 1. -/
theorem progress_updates_every_image (listing : List (List Char))
    (client : List Char → Option (List MenuRow)) :
    (process_images_in_folder listing client).progress =
      (List.range (listing.filter endswithImageExtension).length).map
        (fun i => (i + 1, (listing.filter endswithImageExtension).length)) ∧
    (0 < (listing.filter endswithImageExtension).length →
      ((process_images_in_folder listing client).progress.map progressFraction).getLast? =
        some 1) := by
  have hp : (process_images_in_folder listing client).progress =
      (List.range (listing.filter endswithImageExtension).length).map
        (fun i => (i + 1, (listing.filter endswithImageExtension).length)) := by
    rw [show (process_images_in_folder listing client).progress =
        (orchLoop client (listing.filter endswithImageExtension).length
          (listing.filter endswithImageExtension) 0).2 from rfl,
      orchLoop_progress]
    exact List.map_congr_left
      (fun k _ => congrArg (fun z => (z, (listing.filter endswithImageExtension).length))
        (by omega))
  refine ⟨hp, ?_⟩
  intro hpos
  rw [hp]
  obtain ⟨m, hm⟩ : ∃ m, (listing.filter endswithImageExtension).length = m + 1 :=
    ⟨(listing.filter endswithImageExtension).length - 1, by omega⟩
  rw [hm, List.range_succ, List.map_append, List.map_append]
  simp only [List.map_cons, List.map_nil]
  rw [List.getLast?_concat]
  have h1 : progressFraction (m + 1, m + 1) = 1 := by
    show ((m + 1 : ℕ) : ℚ) / ((m + 1 : ℕ) : ℚ) = 1
    rw [div_self]
    exact_mod_cast Nat.succ_ne_zero m
  rw [h1]

/-- Witness for C10: one listed image whose extraction fails; the
progress still ends at exactly 1. -/
theorem progress_updates_every_image_witness :
    (0 < (["a.png".data].filter endswithImageExtension).length) ∧
    ((process_images_in_folder ["a.png".data]
        (fun _ => (none : Option (List MenuRow)))).progress.map progressFraction).getLast? =
      some 1 :=
  ⟨by decide, (progress_updates_every_image ["a.png".data] (fun _ => none)).2 (by decide)⟩

/-- The rasterizer loop on a document whose pages all render: one file
per page, named by consecutive 1-based indices, loop completes. -/
theorem rasterLoop_all_true (folder : List Char) (pages : List Bool) (i : Nat)
    (h : ∀ b ∈ pages, b = true) :
    rasterLoop folder pages i =
      ((List.range pages.length).map (fun k => pageFileName folder (i + k + 1)), true) := by
  induction pages generalizing i with
  | nil => rfl
  | cons b rest ih =>
    have hb : b = true := h b (List.mem_cons_self b rest)
    have hrest : ∀ x ∈ rest, x = true := fun x hx => h x (List.mem_cons_of_mem b hx)
    rw [show rasterLoop folder (b :: rest) i =
        if b then
          (pageFileName folder (i + 1) :: (rasterLoop folder rest (i + 1)).1,
            (rasterLoop folder rest (i + 1)).2)
        else ([], false) from rfl,
      hb, if_pos rfl, ih (i + 1) hrest]
    rw [List.length_cons, List.range_succ_eq_map, List.map_cons, List.map_map]
    refine congrArg (fun l => (l, true)) ?_
    refine congrArg₂ List.cons rfl ?_
    refine List.map_congr_left ?_
    intro k _
    simp only [Function.comp_apply]
    exact congrArg (pageFileName folder) (by omega)

/-- If some page fails to render, the rasterizer loop does not complete
and the function falls into its `except` clause. -/
theorem rasterLoop_has_failure (folder : List Char) (pages : List Bool) (i : Nat)
    (h : false ∈ pages) : (rasterLoop folder pages i).2 = false := by
  induction pages generalizing i with
  | nil => exact absurd h (List.not_mem_nil false)
  | cons b rest ih =>
    cases b with
    | false => rfl
    | true =>
      have hrest : false ∈ rest := by
        rcases List.mem_cons.mp h with h1 | h1
        · exact absurd h1.symm (by simp)
        · exact h1
      simpa [rasterLoop] using ih (i + 1) hrest

/-- C6.  On a document that opens with all pages rendering, the
Rasterizer creates exactly one `menu_section_page_<n>.png` file per
page with 1-based consecutive indices and returns the output folder;
when the document cannot be opened, or some page fails to render, it
returns the `None` sentinel. -/
theorem rasterizer_pages_files (folder : List Char) (pages : List Bool)
    (h : ∀ b ∈ pages, b = true) :
    (take_screenshots_of_menu_sections folder (some pages)).1 =
        (List.range pages.length).map (fun i => pageFileName folder (i + 1)) ∧
    (take_screenshots_of_menu_sections folder (some pages)).2 = some folder ∧
    (take_screenshots_of_menu_sections folder none).2 = none ∧
    (∀ pages2 : List Bool, false ∈ pages2 →
      (take_screenshots_of_menu_sections folder (some pages2)).2 = none) := by
  have hr := rasterLoop_all_true folder pages 0 h
  refine ⟨?_, ?_, rfl, ?_⟩
  · show (rasterLoop folder pages 0).1 = _
    rw [hr]
    exact List.map_congr_left (fun k _ => congrArg (pageFileName folder) (by omega))
  · show (if (rasterLoop folder pages 0).2 then some folder else none) = some folder
    rw [hr]
    rfl
  · intro pages2 h2
    show (if (rasterLoop folder pages2 0).2 then some folder else none) = none
    rw [rasterLoop_has_failure folder pages2 0 h2]
    rfl

/-- Witness for C6 on a two-page document. -/
theorem rasterizer_pages_files_witness :
    (∀ b ∈ [true, true], b = true) ∧
    ((take_screenshots_of_menu_sections "menu".data (some [true, true])).1 =
        (List.range 2).map (fun i => pageFileName "menu".data (i + 1)) ∧
      (take_screenshots_of_menu_sections "menu".data (some [true, true])).2 =
        some ("menu".data) ∧
      (take_screenshots_of_menu_sections "menu".data none).2 = none ∧
      (∀ pages2 : List Bool, false ∈ pages2 →
        (take_screenshots_of_menu_sections "menu".data (some pages2)).2 = none)) :=
  ⟨by decide, rasterizer_pages_files ("menu".data) [true, true] (by decide)⟩

/-- Flattening a list of well-shaped sections succeeds and pairs every
item of every section with its section's `item_type`, in order. -/
theorem sectionsRows_shaped : ∀ ss : List Json, (∀ s ∈ ss, secShape s) →
    sectionsRows ss =
      Except.ok (ss.flatMap (fun s => (secItems s).map (itemRow (secType s)))) := by
  intro ss
  induction ss with
  | nil => intro _; rfl
  | cons s rest ih =>
    intro hs
    obtain ⟨fs, hfs, ⟨t, ht⟩, ⟨its, hi⟩⟩ := hs s (List.mem_cons_self s rest)
    subst hfs
    have h1 : sectionRows (Json.obj fs) = Except.ok (its.map (itemRow t)) := by
      simp [sectionRows, hi, ht]
    have h2 := ih (fun x hx => hs x (List.mem_cons_of_mem _ hx))
    simp only [sectionsRows, h1, h2, List.flatMap_cons]
    have hitems : secItems (Json.obj fs) = its := by simp [secItems, hi]
    have htype : secType (Json.obj fs) = t := by simp [secType, ht]
    rw [hitems, htype]

/-- A character that needs no CSV quoting is neither a field separator
nor a quote. -/
theorem not_special_props {c : Char} (h : isCsvSpecial c = false) :
    isFieldSep c = false ∧ (c == '"') = false := by
  unfold isCsvSpecial at h
  unfold isFieldSep
  simp only [Bool.or_eq_false_iff] at h
  simp [h.1, h.2]

/-- A field separator is not a quote. -/
theorem fieldSep_ne_quote {c : Char} (h : isFieldSep c = true) : (c == '"') = false := by
  unfold isFieldSep at h
  rcases Bool.or_eq_true_iff.mp h with h1 | h1
  · rw [show c = ',' from beq_iff_eq.mp h1]; decide
  · rw [show c = '\n' from beq_iff_eq.mp h1]; decide

/-- Scanning the quoted encoding of a field body recovers the body and
the remainder, provided the remainder does not itself begin with a
quote. -/
theorem scanQuoted_encode (v rest : List Char) (hrest : rest.head? ≠ some '"') :
    scanQuoted (escapeQ v ++ '"' :: rest) = some (v, rest) := by
  induction v with
  | nil =>
    show scanQuoted ('"' :: rest) = some ([], rest)
    cases rest with
    | nil => rfl
    | cons r rest2 =>
      have hr : (r == '"') = false := by
        rw [beq_eq_false_iff_ne]
        intro h
        exact hrest (by rw [h]; rfl)
      simp [scanQuoted, hr]
  | cons c v2 ih =>
    by_cases hc : c = '"'
    · subst hc
      have : escapeQ ('"' :: v2) ++ '"' :: rest = '"' :: '"' :: (escapeQ v2 ++ '"' :: rest) := by
        simp [escapeQ]
      rw [this]
      simp [scanQuoted, ih]
    · have hcb : (c == '"') = false := beq_eq_false_iff_ne.mpr hc
      have : escapeQ (c :: v2) ++ '"' :: rest = c :: (escapeQ v2 ++ '"' :: rest) := by
        simp [escapeQ, hc]
      rw [this]
      rw [scanQuoted.eq_def]
      show (if c == '"' then
          (match escapeQ v2 ++ '"' :: rest with
           | r :: rest2 =>
             if r == '"' then (scanQuoted rest2).map (fun p => ('"' :: p.1, p.2))
             else some ([], r :: rest2)
           | [] => some ([], []))
        else (scanQuoted (escapeQ v2 ++ '"' :: rest)).map (fun p => (c :: p.1, p.2))) =
          some (c :: v2, rest)
      rw [hcb]
      simp [ih]

/-- Splitting an encoded unquoted field at the first separator. -/
theorem split_at_sep (v rest : List Char) (hv : ∀ c ∈ v, isFieldSep c = false)
    (hr : ∀ r rest2, rest = r :: rest2 → isFieldSep r = true) :
    (v ++ rest).takeWhile (fun x => !isFieldSep x) = v ∧
      (v ++ rest).dropWhile (fun x => !isFieldSep x) = rest := by
  induction v with
  | nil =>
    cases rest with
    | nil => exact ⟨rfl, rfl⟩
    | cons r rest2 =>
      have := hr r rest2 rfl
      constructor <;> simp [List.takeWhile_cons, List.dropWhile_cons, this]
  | cons c v2 ih =>
    have hc := hv c (List.mem_cons_self c v2)
    have ih2 := ih (fun x hx => hv x (List.mem_cons_of_mem _ hx))
    constructor <;>
      simp [List.takeWhile_cons, List.dropWhile_cons, hc, ih2.1, ih2.2]

/-- Parsing the written form of a field recovers it together with the
remainder, provided the remainder begins with a separator (or is
empty). -/
theorem parseField_encode (v rest : List Char)
    (hr : ∀ r rest2, rest = r :: rest2 → isFieldSep r = true) :
    parseField (writeField v ++ rest) = (v, rest) := by
  by_cases hq : v.any isCsvSpecial
  · have hw : writeField v = quoteField v := by rw [writeField, if_pos hq]
    have hassoc : quoteField v ++ rest = '"' :: (escapeQ v ++ '"' :: rest) := by
      simp [quoteField]
    rw [hw, hassoc]
    have hhead : rest.head? ≠ some '"' := by
      cases rest with
      | nil => intro h; exact Option.noConfusion h
      | cons r rest2 =>
        intro h
        have h1 : r = '"' := Option.some.inj h
        have h2 := fieldSep_ne_quote (hr r rest2 rfl)
        rw [h1] at h2
        simp at h2
    have hsq := scanQuoted_encode v rest hhead
    simp [parseField, hsq]
  · have hw : writeField v = v := by rw [writeField, if_neg hq]
    have hv : ∀ c ∈ v, isCsvSpecial c = false := by
      intro c hc
      rcases Bool.eq_false_or_eq_true (isCsvSpecial c) with h | h
      · exact absurd (List.any_eq_true.mpr ⟨c, hc, h⟩) hq
      · exact h
    rw [hw]
    cases v with
    | nil =>
      cases rest with
      | nil => rfl
      | cons r rest2 =>
        have hsep := hr r rest2 rfl
        have hnq := fieldSep_ne_quote hsep
        show parseField (r :: rest2) = ([], r :: rest2)
        have hsplit := split_at_sep [] (r :: rest2) (by intro c hc; cases hc) hr
        simp only [List.nil_append] at hsplit
        simp [parseField, hnq, hsplit.1, hsplit.2]
    | cons c v2 =>
      have hcs := hv c (List.mem_cons_self c v2)
      have hcprops := not_special_props hcs
      have hsplit := split_at_sep (c :: v2) rest
        (fun x hx => (not_special_props (hv x hx)).1) hr
      show parseField ((c :: v2) ++ rest) = (c :: v2, rest)
      have : (c :: v2) ++ rest = c :: (v2 ++ rest) := rfl
      rw [this]
      simp only [parseField, hcprops.2, if_false, Bool.false_eq_true]
      rw [show c :: (v2 ++ rest) = (c :: v2) ++ rest from rfl]
      rw [hsplit.1, hsplit.2]

/-- Lower bound used for fuel: a record has at least as many characters
as it has fields, up to the final separator. -/
theorem writeRecord_length (fs : List (List Char)) :
    fs.length ≤ (writeRecord fs).length + 1 := by
  induction fs with
  | nil => simp [writeRecord]
  | cons f t ih =>
    cases t with
    | nil => simp [writeRecord]
    | cons g t2 =>
      rw [show writeRecord (f :: g :: t2) = f ++ ',' :: writeRecord (g :: t2) from rfl]
      simp only [List.length_cons, List.length_append] at *
      omega

/-- Parsing the written form of a non-empty record recovers its fields
and the remainder after its newline. -/
theorem parseRecordF_encode (vs : List (List Char)) (fuel : Nat) (rest : List Char)
    (hne : vs ≠ []) (hfuel : vs.length ≤ fuel) :
    parseRecordF fuel (writeRecord (vs.map writeField) ++ '\n' :: rest) = (vs, rest) := by
  induction vs generalizing fuel rest with
  | nil => exact absurd rfl hne
  | cons v vs2 ih =>
    obtain ⟨f2, rfl⟩ : ∃ f2, fuel = f2 + 1 := ⟨fuel - 1, by simp at hfuel; omega⟩
    cases vs2 with
    | nil =>
      show parseRecordF (f2 + 1) (writeField v ++ '\n' :: rest) = ([v], rest)
      have hpf := parseField_encode v ('\n' :: rest)
        (fun r rest2 h => by cases h; decide)
      simp [parseRecordF, hpf]
    | cons v3 vs3 =>
      have hrec : writeRecord ((v :: v3 :: vs3).map writeField) ++ '\n' :: rest =
          writeField v ++ ',' :: (writeRecord ((v3 :: vs3).map writeField) ++ '\n' :: rest) := by
        simp [writeRecord]
      rw [hrec]
      have hpf := parseField_encode v
        (',' :: (writeRecord ((v3 :: vs3).map writeField) ++ '\n' :: rest))
        (fun r rest2 h => by cases h; decide)
      have hih := ih f2 rest (by intro h; exact List.noConfusion h)
        (by simp at hfuel ⊢; omega)
      simp only [parseRecordF]
      rw [hpf]
      show (v :: (parseRecordF f2 (writeRecord ((v3 :: vs3).map writeField) ++ '\n' :: rest)).1,
            (parseRecordF f2 (writeRecord ((v3 :: vs3).map writeField) ++ '\n' :: rest)).2) =
        (v :: v3 :: vs3, rest)
      rw [hih]

/-- Each encoded record line contributes at least one character. -/
theorem encodeRows_length (rss : List (List (List Char))) :
    rss.length ≤ (encodeRows rss).length := by
  induction rss with
  | nil => simp [encodeRows]
  | cons vs r ih =>
    rw [show encodeRows (vs :: r) =
        (writeRecord (vs.map writeField) ++ ['\n']) ++ encodeRows r from by
      simp [encodeRows]]
    simp only [List.length_cons, List.length_append, List.length_singleton]
    omega

/-- Parsing the encoding of a list of records (each non-empty and not a
blank line) recovers exactly those records. -/
theorem parseRecordsF_encode (rss : List (List (List Char))) (fuel : Nat)
    (hshape : ∀ vs ∈ rss, vs ≠ [] ∧ vs ≠ [[]]) (hfuel : rss.length ≤ fuel) :
    parseRecordsF fuel (encodeRows rss) = rss := by
  induction rss generalizing fuel with
  | nil =>
    cases fuel with
    | zero => rfl
    | succ f => rfl
  | cons vs rss2 ih =>
    obtain ⟨f2, rfl⟩ : ∃ f2, fuel = f2 + 1 := ⟨fuel - 1, by simp at hfuel; omega⟩
    have hvs := hshape vs (List.mem_cons_self vs rss2)
    have henc : encodeRows (vs :: rss2) =
        writeRecord (vs.map writeField) ++ '\n' :: encodeRows rss2 := by
      simp [encodeRows]
    have hnonnil : encodeRows (vs :: rss2) ≠ [] := by
      rw [henc]
      cases hwr : writeRecord (vs.map writeField) with
      | nil => simp
      | cons a b => simp
    have hlen : vs.length ≤ (encodeRows (vs :: rss2)).length + 1 := by
      have h1 := writeRecord_length (vs.map writeField)
      rw [henc]
      simp only [List.length_map] at h1
      simp only [List.length_append, List.length_cons]
      omega
    have hrec := parseRecordF_encode vs ((encodeRows (vs :: rss2)).length + 1)
      (encodeRows rss2) hvs.1 hlen
    show parseRecordsF (f2 + 1) (encodeRows (vs :: rss2)) = vs :: rss2
    rw [parseRecordsF, if_neg hnonnil]
    rw [show parseRecordF ((encodeRows (vs :: rss2)).length + 1) (encodeRows (vs :: rss2)) =
        (vs, encodeRows rss2) from by rw [henc] at hrec ⊢; exact hrec]
    rw [if_neg hvs.2]
    rw [ih f2 (fun x hx => hshape x (List.mem_cons_of_mem _ hx)) (by simp at hfuel; omega)]

/-- A safe cell survives the write-then-read trip unchanged. -/
theorem readCell_cellRaw (c : Cell) (h : CellSafe c) : readCell (cellRaw c) = c := by
  cases c with
  | na => rfl
  | s v =>
    have h2 : naTokens.contains v = false ∧ intLike v = false ∧
        floatLike v = false ∧ boolLike v = false := h
    show readCell v = Cell.s v
    unfold readCell
    rw [if_neg (by intro hx; rw [h2.1] at hx; exact Bool.false_ne_true hx),
      if_neg (by rw [h2.2.1, h2.2.2.1, h2.2.2.2]; decide)]
  | coerced raw => exact h.elim

end Happyplates
